import Mathlib

/-!
Verification development for the TravelBot concurrency/state-expiry core.

Shallow embedding of:
- `src/util/ttlMap.js` (`TTLMap`): an insertion-ordered map with per-entry
  expiry deadlines.  JavaScript `Map` iterates in insertion order and `set` on
  an existing key keeps its position; we model the store as an association
  list.  Time is an explicit `now : Nat` argument (`Date.now()` in the
  source); the per-entry `setTimeout` timers only ever delete entries that are
  already past their deadline, so the lazy-expiry reads modelled here decide
  every read result.
- `src/util/dedupe.js` (`MessageDeduplicator`).
- the inflight-request serializer and cooldown logic of `src/index.js`
  (`handleMessage` / `processMessage`), as a small-step event-loop model.
- the bounded work queue (`p-queue`, used by `getTravelReply`), modelled from
  the spec since the library itself is not part of the sources.
-/

namespace TravelBot

/-- One stored entry: `{ value, expiresAt: Date.now() + ttl }` (ttlMap.js `set`). -/
structure Entry (V : Type) where
  value : V
  expiresAt : Nat
deriving DecidableEq, Repr

/-- The `TTLMap` of ttlMap.js: `this.map` as an insertion-ordered association
list, plus the construction-time `defaultTTL`.  The `timers` map only speeds
up deletion of already-expired entries and is not modelled. -/
structure TTLMap (K V : Type) where
  map : List (K × Entry V)
  defaultTTL : Nat
deriving DecidableEq, Repr

namespace TTLMap

variable {K V : Type} [DecidableEq K]

/-- `new TTLMap(defaultTTL)`: empty store. -/
def empty (defaultTTL : Nat) : TTLMap K V := ⟨[], defaultTTL⟩

/-- `this.map.get(key)` on the association list. -/
def assocFind : List (K × Entry V) → K → Option (Entry V)
  | [], _ => none
  | (k', e) :: rest, k => if k' = k then some e else assocFind rest k

/-- JavaScript `Map.set`: overwrite in place if the key is present (keeping
its insertion position), otherwise append at the end. -/
def upsert : List (K × Entry V) → K → Entry V → List (K × Entry V)
  | [], k, e => [(k, e)]
  | (k', e') :: rest, k, e =>
      if k' = k then (k, e) :: rest else (k', e') :: upsert rest k e

/-- `set(key, value, ttl)`: stores `{ value, expiresAt: now + ttl }`,
overwriting any existing entry for the key. -/
def set (m : TTLMap K V) (now : Nat) (k : K) (v : V) (ttl : Nat) : TTLMap K V :=
  { m with map := upsert m.map k ⟨v, now + ttl⟩ }

/-- `set` with the ttl argument defaulted to `this.defaultTTL`. -/
def setD (m : TTLMap K V) (now : Nat) (k : K) (v : V) : TTLMap K V :=
  m.set now k v m.defaultTTL

/-- `delete(key)`: removes the entry unconditionally. -/
def delete (m : TTLMap K V) (k : K) : TTLMap K V :=
  { m with map := m.map.filter (fun p => p.1 ≠ k) }

/-- `get(key)`: `undefined` if absent; if `Date.now() > entry.expiresAt` the
entry is deleted and `undefined` returned; otherwise the value.  Returns the
result together with the (possibly mutated) store. -/
def get (m : TTLMap K V) (now : Nat) (k : K) : Option V × TTLMap K V :=
  match assocFind m.map k with
  | none => (none, m)
  | some e => if e.expiresAt < now then (none, m.delete k) else (some e.value, m)

/-- `has(key)`: the same staleness check as `get`, returning a Boolean. -/
def has (m : TTLMap K V) (now : Nat) (k : K) : Bool × TTLMap K V :=
  match assocFind m.map k with
  | none => (false, m)
  | some e => if e.expiresAt < now then (false, m.delete k) else (true, m)

/-- `get size()`: number of physically present entries. -/
def size (m : TTLMap K V) : Nat := m.map.length

/-- Insertion-order list of keys (what `for (const [key] of this.map)` walks). -/
def keys (m : TTLMap K V) : List K := m.map.map Prod.fst

end TTLMap

/-- dedupe.js `DEDUPE_TTL`: 10 minutes. -/
def DEDUPE_TTL : Nat := 10 * 60 * 1000

/-- dedupe.js `MAX_ENTRIES`: 10000. -/
def MAX_ENTRIES : Nat := 10000

/-- The `MessageDeduplicator` of dedupe.js: a `TTLMap` of `id → true` markers
plus the configured capacity and TTL.  Keys are strings (serialized message
ids); `!messageId` is modelled as equality with the empty string. -/
structure MessageDeduplicator where
  seen : TTLMap String Bool
  maxEntries : Nat
  ttl : Nat
deriving DecidableEq, Repr

namespace MessageDeduplicator

/-- `new MessageDeduplicator(ttl, maxEntries)`. -/
def init (ttl maxEntries : Nat) : MessageDeduplicator :=
  ⟨TTLMap.empty ttl, maxEntries, ttl⟩

/-- `isDuplicate(messageId)`: false for an empty id (logged only); otherwise
`this.seen.has(messageId)` — which may evict a stale entry as a side effect. -/
def isDuplicate (d : MessageDeduplicator) (now : Nat) (id : String) :
    Bool × MessageDeduplicator :=
  if id = "" then (false, d)
  else
    let r := d.seen.has now id
    (r.1, { d with seen := r.2 })

/-- `evictOldest()`: deletes the first `Math.floor(maxEntries * 0.1)` entries
in insertion order (stopping early if the store is smaller).  For every
capacity that arises in practice the double-precision product `maxEntries *
0.1` floors to `maxEntries / 10` in natural division, which is what we use. -/
def evictOldest (d : MessageDeduplicator) : MessageDeduplicator :=
  { d with seen := { d.seen with map := d.seen.map.drop (d.maxEntries / 10) } }

/-- `markSeen(messageId)`: no-op on an empty id; if `size >= maxEntries` first
`evictOldest()`, then `this.seen.set(messageId, true, this.ttl)`. -/
def markSeen (d : MessageDeduplicator) (now : Nat) (id : String) :
    MessageDeduplicator :=
  if id = "" then d
  else
    let d1 := if d.maxEntries ≤ d.seen.size then d.evictOldest else d
    { d1 with seen := d1.seen.set now id true d1.ttl }

/-- `checkAndMark(messageId)`: `isDuplicate` then, only when new, `markSeen`. -/
def checkAndMark (d : MessageDeduplicator) (now : Nat) (id : String) :
    Bool × MessageDeduplicator :=
  let r := d.isDuplicate now id
  if r.1 then (true, r.2) else (false, r.2.markSeen now id)

/-- Folding a sequence of `markSeen` calls (each with its own clock reading). -/
def markSeenSeq (d : MessageDeduplicator) (ops : List (Nat × String)) :
    MessageDeduplicator :=
  ops.foldl (fun d p => d.markSeen p.1 p.2) d

end MessageDeduplicator

/-- Marking ids `"1" .. toString n` in order, at time 0, into a deduplicator
with `maxEntries = 100` (the instance of spec §8 / claim C4). -/
def c4Insert (n : Nat) : MessageDeduplicator :=
  MessageDeduplicator.markSeenSeq (MessageDeduplicator.init DEDUPE_TTL 100)
    ((List.range n).map (fun i => (0, toString (i + 1))))

/-- A deduplicator with `maxEntries = 10` filled to capacity with ids
`"1" .. "10"` (used to probe re-insertion at capacity). -/
def dedupeAtCapacity : MessageDeduplicator :=
  MessageDeduplicator.markSeenSeq (MessageDeduplicator.init 1000 10)
    ((List.range 10).map (fun i => (0, toString (i + 1))))

/-- index.js default `USER_COOLDOWN_MS` (env fallback): 2000 ms. -/
def USER_COOLDOWN_MS : Nat := 2000

/-- index.js line 54: `new TTLMap(USER_COOLDOWN_MS * 2)` — the per-user
cooldown store, generalized over the cooldown window. -/
def mkUserCooldowns (cooldownMs : Nat) : TTLMap String Nat :=
  TTLMap.empty (cooldownMs * 2)

/-- index.js `processMessage` lines 444-452: the sleep duration applied before
handling, from the cooldown-store read.  `if (lastReplyAt)` is falsy both for
`undefined` (key absent/expired) and for a stored timestamp of `0`. -/
def cooldownWait (lastReplyAt : Option Nat) (now cooldownMs : Nat) : Nat :=
  match lastReplyAt with
  | none => 0
  | some t =>
      if t = 0 then 0
      else
        let elapsed := now - t
        if elapsed < cooldownMs then cooldownMs - elapsed else 0

/-- index.js line 504: `userCooldowns.set(userId, Date.now())` after a reply —
a `set` with the store's default TTL. -/
def recordCompletion (m : TTLMap String Nat) (now : Nat) (userId : String) :
    TTLMap String Nat :=
  m.setD now userId now

/-! ### Event-loop model of `handleMessage` / `processMessage` (index.js)

The per-user serializer of index.js keeps `inflightRequests : Map(userId →
promise)`; `handleMessage` either starts `processMessage(msg)` directly
(registering, via `try { await promise } finally { ... }`, an unconditional
`inflightRequests.delete(userId)` to run when that first promise settles), or
replaces the map entry by `currentPromise.then(() => processMessage(msg))`.
We model one user's view of the JavaScript event loop: promises with
microtask reactions processed in FIFO order, handlers as timed tasks that
settle after a number of macrotask ticks. -/

/-- Promise status. -/
inductive PState where
  | pending
  | fulfilled
  | rejected
deriving DecidableEq, Repr

/-- The promise reactions arising in `handleMessage`:
`finallyDelete` is the `finally { inflightRequests.delete(userId) }`
continuation; `chainThen mid dur ok target` is
`.then(() => processMessage(msg))` feeding the derived promise `target`
(on rejection of the source, `target` rejects without the handler running —
there is no rejection handler in the source); `adopt target` settles `target`
the same way the source settled (the derived promise adopting the handler's
promise). -/
inductive Reaction where
  | finallyDelete
  | chainThen (mid dur : Nat) (ok : Bool) (target : Nat)
  | adopt (target : Nat)
deriving DecidableEq, Repr

/-- A promise record: status plus reactions registered while pending. -/
structure PromiseRec where
  state : PState
  reactions : List Reaction
deriving DecidableEq, Repr

/-- Observable handler events: `processMessage` for message `mid` begins
(`start`), returns normally (`fin`), or throws (`finErr`). -/
inductive TraceEv where
  | start (mid : Nat)
  | fin (mid : Nat)
  | finErr (mid : Nat)
deriving DecidableEq, Repr

/-- Event-loop state for a single user key: the promise store, the running
handlers `(promise id, message id, remaining ticks, resolves ok)`, the
`inflightRequests` entry for this user, a fresh-id counter and the trace. -/
structure LoopState where
  promises : List (Nat × PromiseRec)
  running : List (Nat × Nat × Nat × Bool)
  inflight : Option Nat
  nextId : Nat
  trace : List TraceEv
deriving DecidableEq, Repr

namespace LoopState

/-- No messages yet. -/
def init : LoopState := ⟨[], [], none, 0, []⟩

/-- Find a promise record. -/
def pfind : List (Nat × PromiseRec) → Nat → Option PromiseRec
  | [], _ => none
  | (i, pr) :: rest, pid => if i = pid then some pr else pfind rest pid

/-- Replace a promise record. -/
def pset : List (Nat × PromiseRec) → Nat → PromiseRec → List (Nat × PromiseRec)
  | [], _, _ => []
  | (i, pr') :: rest, pid, pr =>
      if i = pid then (pid, pr) :: rest else (i, pr') :: pset rest pid pr

/-- Allocate a fresh pending promise. -/
def addPending (s : LoopState) : Nat × LoopState :=
  (s.nextId,
    { s with
        promises := s.promises ++ [(s.nextId, ⟨PState.pending, []⟩)],
        nextId := s.nextId + 1 })

/-- Begin `processMessage(msg)`: a fresh promise plus a running handler; the
handler body starts executing at once (trace `start`). -/
def startProcess (s : LoopState) (mid dur : Nat) (ok : Bool) : Nat × LoopState :=
  let r := s.addPending
  (r.1,
    { r.2 with
        running := r.2.running ++ [(r.1, mid, dur, ok)],
        trace := r.2.trace ++ [TraceEv.start mid] })

/-- A microtask: a reaction together with the settlement status of its source. -/
def Microtask := Reaction × PState

/-- Settle a pending promise: record the status and emit its reactions as
microtasks (a promise settles at most once). -/
def settleP (s : LoopState) (pid : Nat) (st : PState) :
    LoopState × List Microtask :=
  match pfind s.promises pid with
  | none => (s, [])
  | some pr =>
      match pr.state with
      | PState.pending =>
          ({ s with promises := pset s.promises pid ⟨st, []⟩ },
            pr.reactions.map (fun r => (r, st)))
      | _ => (s, [])

/-- Register a reaction: appended while the promise is pending; against an
already-settled promise it becomes an immediate microtask. -/
def addReaction (s : LoopState) (pid : Nat) (r : Reaction) :
    LoopState × List Microtask :=
  match pfind s.promises pid with
  | none => (s, [])
  | some pr =>
      match pr.state with
      | PState.pending =>
          ({ s with promises := pset s.promises pid ⟨pr.state, pr.reactions ++ [r]⟩ },
            [])
      | st => (s, [(r, st)])

/-- Run one microtask. -/
def runReaction (s : LoopState) (m : Microtask) : LoopState × List Microtask :=
  match m with
  | (Reaction.finallyDelete, _) => ({ s with inflight := none }, [])
  | (Reaction.chainThen mid dur ok target, st) =>
      match st with
      | PState.fulfilled =>
          let r := s.startProcess mid dur ok
          r.2.addReaction r.1 (Reaction.adopt target)
      | _ => s.settleP target PState.rejected
  | (Reaction.adopt target, st) => s.settleP target st

/-- Drain the FIFO microtask queue (fuelled; every reachable cascade is
finite, and all theorems below use ample fuel on concrete states). -/
def drain : Nat → LoopState → List Microtask → LoopState
  | _, s, [] => s
  | 0, s, _ => s
  | Nat.succ fuel, s, m :: rest =>
      let r := s.runReaction m
      drain fuel r.1 (rest ++ r.2)

/-- index.js `handleMessage` lines 412-431 (after the dedupe check): if an
inflight entry exists, replace it with `currentPromise.then(() =>
processMessage(msg))`; otherwise start `processMessage(msg)`, publish its
promise, and `await` it with a `finally` that deletes the entry. -/
def handleMessage (fuel : Nat) (s : LoopState) (mid dur : Nat) (ok : Bool) :
    LoopState :=
  match s.inflight with
  | some pid =>
      let r := s.addPending
      let s1 := { r.2 with inflight := some r.1 }
      let r2 := s1.addReaction pid (Reaction.chainThen mid dur ok r.1)
      drain fuel r2.1 r2.2
  | none =>
      let r := s.startProcess mid dur ok
      let s1 := { r.2 with inflight := some r.1 }
      let r2 := s1.addReaction r.1 Reaction.finallyDelete
      drain fuel r2.1 r2.2

/-- One handler finishing: trace its return, settle its promise and drain the
resulting microtasks. -/
def finishOne (fuel : Nat) (s : LoopState) (q : Nat × Nat × Nat × Bool) :
    LoopState :=
  let tr := if q.2.2.2 then TraceEv.fin q.2.1 else TraceEv.finErr q.2.1
  let r := settleP { s with trace := s.trace ++ [tr] } q.1
    (if q.2.2.2 then PState.fulfilled else PState.rejected)
  drain fuel r.1 r.2

/-- One macrotask tick: every running handler advances; those whose remaining
time reaches zero return and settle. -/
def tick (fuel : Nat) (s : LoopState) : LoopState :=
  let dec := s.running.map (fun q => (q.1, q.2.1, q.2.2.1 - 1, q.2.2.2))
  let finished := dec.filter (fun q => q.2.2.1 = 0)
  let still := dec.filter (fun q => ¬ q.2.2.1 = 0)
  finished.foldl (fun s q => finishOne fuel s q) { s with running := still }

end LoopState

/-- External stimuli for the event-loop model: a message arriving for the one
user (its handler runs `dur` ticks and then returns ok / throws), or a tick. -/
inductive SEv where
  | arrive (mid dur : Nat) (ok : Bool)
  | tick
deriving DecidableEq, Repr

/-- Run a script of stimuli from a state. -/
def runScript (fuel : Nat) : List SEv → LoopState → LoopState
  | [], s => s
  | SEv.arrive mid dur ok :: rest, s =>
      runScript fuel rest (s.handleMessage fuel mid dur ok)
  | SEv.tick :: rest, s => runScript fuel rest (s.tick fuel)

/-- Claim C1's failing input: message 1 arrives (handler runs 2 ticks);
message 2 arrives while 1 is running (queued on the chain); message 3 arrives
after 1's handler returned but while 2's handler is still running. -/
def serializerScriptOverlap : List SEv :=
  [SEv.arrive 1 2 true, SEv.tick, SEv.arrive 2 2 true, SEv.tick,
    SEv.arrive 3 2 true, SEv.tick, SEv.tick]

/-- Claim C2's failing input: message 1 arrives and its handler will throw;
message 2 arrives while 1 is in flight; then the loop runs to quiescence. -/
def serializerScriptFailure : List SEv :=
  [SEv.arrive 1 2 false, SEv.arrive 2 2 true, SEv.tick, SEv.tick, SEv.tick,
    SEv.tick]

/-! ### Bounded Work Queue

Modelled from the spec: the Bounded Work Queue of §4.5 — the `p-queue`
instance (`new PQueue({ concurrency: AI_CONCURRENCY })`) that `getTravelReply`
submits every provider call to is a library whose code is not among the
sources.  `submit` starts a task at once when `running < concurrencyLimit`
and otherwise appends it to a FIFO; when a task settles it leaves `running`
and, if the FIFO is non-empty, the FIFO head starts. -/
structure WorkQueue where
  limit : Nat
  pending : List Nat
  running : List Nat
  done : List Nat
  startedOrder : List Nat
  submittedOrder : List Nat
deriving DecidableEq, Repr

namespace WorkQueue

/-- Fresh queue with the given concurrency limit. -/
def init (limit : Nat) : WorkQueue := ⟨limit, [], [], [], [], []⟩

/-- `submit(task)`. -/
def submit (q : WorkQueue) (tid : Nat) : WorkQueue :=
  let q1 := { q with submittedOrder := q.submittedOrder ++ [tid] }
  if q1.running.length < q1.limit then
    { q1 with
        running := q1.running ++ [tid],
        startedOrder := q1.startedOrder ++ [tid] }
  else
    { q1 with pending := q1.pending ++ [tid] }

/-- A running task settles (success or failure): it completes, and the FIFO
head (if any) starts in its slot. -/
def settleTask (q : WorkQueue) (tid : Nat) : WorkQueue :=
  if tid ∈ q.running then
    let q1 := { q with running := q.running.erase tid, done := q.done ++ [tid] }
    match q1.pending with
    | [] => q1
    | t :: rest =>
        { q1 with
            pending := rest,
            running := q1.running ++ [t],
            startedOrder := q1.startedOrder ++ [t] }
  else q

end WorkQueue

/-- Work-queue stimuli: a submission or the settlement of a running task. -/
inductive WQEv where
  | submit (tid : Nat)
  | settle (tid : Nat)
deriving DecidableEq, Repr

/-- One stimulus. -/
def WorkQueue.step (q : WorkQueue) : WQEv → WorkQueue
  | WQEv.submit tid => q.submit tid
  | WQEv.settle tid => q.settleTask tid

/-- Run a stimulus sequence from a fresh queue. -/
def WorkQueue.run (limit : Nat) (evs : List WQEv) : WorkQueue :=
  evs.foldl WorkQueue.step (WorkQueue.init limit)

/-- The running-task count after every prefix of a stimulus sequence (the
"currently running count at any sampled instant"). -/
def WorkQueue.runningCounts (limit : Nat) (evs : List WQEv) : List Nat :=
  (List.range (evs.length + 1)).map
    (fun i => (WorkQueue.run limit (evs.take i)).running.length)

/-- Claim C9's concrete instance: 10 tasks submitted to a limit-3 queue, then
settled out of submission order until all complete. -/
def c9Script : List WQEv :=
  ((List.range 10).map (fun i => WQEv.submit (i + 1))) ++
    [WQEv.settle 2, WQEv.settle 1, WQEv.settle 3, WQEv.settle 5, WQEv.settle 4,
      WQEv.settle 6, WQEv.settle 8, WQEv.settle 10, WQEv.settle 7,
      WQEv.settle 9]

end TravelBot

namespace TravelBot

namespace TTLMap

variable {K V : Type} [DecidableEq K]

theorem assocFind_upsert_self (l : List (K × Entry V)) (k : K) (e : Entry V) :
    assocFind (upsert l k e) k = some e := by
  induction l with
  | nil => simp [upsert, assocFind]
  | cons p rest ih =>
      obtain ⟨k', e'⟩ := p
      by_cases h : k' = k
      · simp [upsert, h, assocFind]
      · simp [upsert, h, assocFind, ih]

theorem upsert_keys_of_mem (l : List (K × Entry V)) (k : K) (e : Entry V)
    (h : k ∈ l.map Prod.fst) :
    (upsert l k e).map Prod.fst = l.map Prod.fst := by
  induction l with
  | nil => simp at h
  | cons p rest ih =>
      obtain ⟨k', e'⟩ := p
      by_cases hk : k' = k
      · simp [upsert, hk]
      · have h' : k ∈ rest.map Prod.fst := by
          simp at h
          rcases h with h | h
          · exact absurd h.symm hk
          · simpa using h
        simp [upsert, hk, ih h']

theorem upsert_length_le (l : List (K × Entry V)) (k : K) (e : Entry V) :
    (upsert l k e).length ≤ l.length + 1 := by
  induction l with
  | nil => simp [upsert]
  | cons p rest ih =>
      obtain ⟨k', e'⟩ := p
      by_cases hk : k' = k
      · simp [upsert, hk]
      · simp only [upsert, if_neg hk, List.length_cons]
        omega

end TTLMap

/-- C6 — Expiring Store lazy expiry on every read: `get` returns not-found
exactly when the key is absent or `now > expiresAt`; in the stale case the
read evicts the entry; `has` performs the same staleness check (same Boolean
outcome, same eviction) without returning the value; consequently no read
returns an entry once `now > expiresAt`. -/
theorem C6_lazy_expiry_on_read {K V : Type} [DecidableEq K]
    (m : TTLMap K V) (now : Nat) (k : K) :
    ((m.get now k).1 = none ↔
      TTLMap.assocFind m.map k = none ∨
        ∃ e, TTLMap.assocFind m.map k = some e ∧ e.expiresAt < now) ∧
    (∀ e, TTLMap.assocFind m.map k = some e → e.expiresAt < now →
      (m.get now k).2 = m.delete k ∧ (m.has now k).2 = m.delete k) ∧
    ((m.has now k).1 = true ↔ ∃ v, (m.get now k).1 = some v) ∧
    (∀ v, (m.get now k).1 = some v →
      ∃ e, TTLMap.assocFind m.map k = some e ∧ v = e.value ∧ ¬ e.expiresAt < now) := by
  refine ⟨?_, ?_, ?_, ?_⟩
  · cases hf : TTLMap.assocFind m.map k with
    | none => simp [TTLMap.get, hf]
    | some e =>
        by_cases h : e.expiresAt < now
        · simp [TTLMap.get, hf, h]
        · simp [TTLMap.get, hf, h]
  · intro e hf h
    simp [TTLMap.get, TTLMap.has, hf, h]
  · cases hf : TTLMap.assocFind m.map k with
    | none => simp [TTLMap.get, TTLMap.has, hf]
    | some e =>
        by_cases h : e.expiresAt < now
        · simp [TTLMap.get, TTLMap.has, hf, h]
        · simp [TTLMap.get, TTLMap.has, hf, h]
  · intro v hv
    cases hf : TTLMap.assocFind m.map k with
    | none => simp [TTLMap.get, hf] at hv
    | some e =>
        by_cases h : e.expiresAt < now
        · simp [TTLMap.get, hf, h] at hv
        · refine ⟨e, rfl, ?_, h⟩
          simp [TTLMap.get, hf, h] at hv
          exact hv.symm

/-- Witness for C6 at a concrete store: key set at time 0 with TTL 10, read at
time 20 — the read reports not-found and evicts. -/
theorem C6_lazy_expiry_on_read_witness :
    (((TTLMap.empty 5 : TTLMap String Bool).set 0 "k" true 10).get 20 "k").1 = none ∧
    (((TTLMap.empty 5 : TTLMap String Bool).set 0 "k" true 10).get 20 "k").2 =
      ((TTLMap.empty 5 : TTLMap String Bool).set 0 "k" true 10).delete "k" := by
  have h := C6_lazy_expiry_on_read
    ((TTLMap.empty 5 : TTLMap String Bool).set 0 "k" true 10) 20 "k"
  refine ⟨?_, ?_⟩
  · exact h.1.mpr (Or.inr ⟨⟨true, 10⟩, by decide, by decide⟩)
  · exact (h.2.1 ⟨true, 10⟩ (by decide) (by decide)).1

/-- C7 — overwrite resets expiry with no stacking: `set` on an existing key
replaces the stored entry with value `v` and deadline `now + ttl`, discarding
the previous deadline; concretely, set at t=0 (TTL 1000), re-set at t=500
(TTL 1000) is still readable at t=1400 and not-found at t=1600. -/
theorem C7_set_resets_expiry :
    (∀ (K V : Type) (_ : DecidableEq K) (m : TTLMap K V) (now : Nat) (k : K)
        (v : V) (ttl : Nat),
      TTLMap.assocFind (m.set now k v ttl).map k = some ⟨v, now + ttl⟩) ∧
    ((((TTLMap.empty 1000 : TTLMap String Nat).set 0 "k" 7 1000).set 500 "k" 7 1000).get
        1400 "k").1 = some 7 ∧
    ((((TTLMap.empty 1000 : TTLMap String Nat).set 0 "k" 7 1000).set 500 "k" 7 1000).get
        1600 "k").1 = none := by
  refine ⟨?_, by decide, by decide⟩
  intro K V instK m now k v ttl
  exact TTLMap.assocFind_upsert_self m.map k ⟨v, now + ttl⟩

/-- Witness for C7 at a concrete store: setting `"z"` at time 3 with TTL 100
stores deadline 103. -/
theorem C7_set_resets_expiry_witness :
    TTLMap.assocFind ((TTLMap.empty 50 : TTLMap String Nat).set 3 "z" 9 100).map
      "z" = some ⟨9, 103⟩ :=
  C7_set_resets_expiry.1 String Nat inferInstance (TTLMap.empty 50) 3 "z" 9 100

namespace TTLMap

variable {K V : Type} [DecidableEq K]

theorem has_true_state (m : TTLMap K V) (now : Nat) (k : K) :
    (m.has now k).1 = true → (m.has now k).2 = m := by
  cases hf : assocFind m.map k with
  | none => simp [has, hf]
  | some e =>
      by_cases h : e.expiresAt < now
      · simp [has, hf, h]
      · simp [has, hf, h]

end TTLMap

namespace MessageDeduplicator

theorem isDuplicate_fields (d : MessageDeduplicator) (now : Nat) (id : String) :
    (d.isDuplicate now id).2.ttl = d.ttl ∧
    (d.isDuplicate now id).2.maxEntries = d.maxEntries := by
  by_cases h : id = "" <;> simp [isDuplicate, h]

theorem markSeen_find (d : MessageDeduplicator) (now : Nat) (id : String)
    (h : id ≠ "") :
    TTLMap.assocFind (d.markSeen now id).seen.map id = some ⟨true, now + d.ttl⟩ := by
  have httl : (if d.maxEntries ≤ d.seen.size then d.evictOldest else d).ttl = d.ttl := by
    by_cases hc : d.maxEntries ≤ d.seen.size <;> simp [evictOldest, hc]
  simp only [markSeen, if_neg h, TTLMap.set, httl]
  exact TTLMap.assocFind_upsert_self _ id ⟨true, now + d.ttl⟩

theorem markSeen_maxEntries (d : MessageDeduplicator) (now : Nat) (id : String) :
    (d.markSeen now id).maxEntries = d.maxEntries := by
  by_cases h : id = ""
  · simp [markSeen, h]
  · by_cases hc : d.maxEntries ≤ d.seen.size <;>
      simp [markSeen, h, hc, evictOldest]

theorem markSeen_size_le (d : MessageDeduplicator) (now : Nat) (id : String)
    (h10 : 10 ≤ d.maxEntries) (hle : d.seen.size ≤ d.maxEntries) :
    (d.markSeen now id).seen.size ≤ d.maxEntries := by
  by_cases h : id = ""
  · simpa [markSeen, h] using hle
  · by_cases hc : d.maxEntries ≤ d.seen.size
    · have hdiv : 1 ≤ d.maxEntries / 10 :=
        (Nat.le_div_iff_mul_le (by norm_num)).mpr (by omega)
      have hgoal : (d.markSeen now id).seen.map =
          TTLMap.upsert (d.seen.map.drop (d.maxEntries / 10)) id
            ⟨true, now + d.ttl⟩ := by
        simp [markSeen, h, hc, evictOldest, TTLMap.set]
      have hup := TTLMap.upsert_length_le
        (d.seen.map.drop (d.maxEntries / 10)) id
        (⟨true, now + d.ttl⟩ : Entry Bool)
      have hdrop : (d.seen.map.drop (d.maxEntries / 10)).length =
          d.seen.map.length - d.maxEntries / 10 := List.length_drop _ _
      show (d.markSeen now id).seen.map.length ≤ d.maxEntries
      rw [hgoal]
      simp only [TTLMap.size] at hle
      omega
    · have hgoal : (d.markSeen now id).seen.map =
          TTLMap.upsert d.seen.map id ⟨true, now + d.ttl⟩ := by
        simp [markSeen, h, hc, TTLMap.set]
      have hup := TTLMap.upsert_length_le d.seen.map id
        (⟨true, now + d.ttl⟩ : Entry Bool)
      show (d.markSeen now id).seen.map.length ≤ d.maxEntries
      rw [hgoal]
      simp only [TTLMap.size] at hc
      omega

end MessageDeduplicator

/-- C3 — `checkAndMark` atomicity of result and state: for a non-empty id it
returns true exactly when an unexpired marker for the id is present, leaving
the state unchanged in that case; and whenever it returns false the id has
been recorded (entry `true` with deadline `now + ttl`) in the resulting
state. -/
theorem C3_checkAndMark_atomic (d : MessageDeduplicator) (now : Nat)
    (id : String) (h : id ≠ "") :
    ((d.checkAndMark now id).1 = true ↔
      ∃ e, TTLMap.assocFind d.seen.map id = some e ∧ ¬ e.expiresAt < now) ∧
    ((d.checkAndMark now id).1 = true → (d.checkAndMark now id).2 = d) ∧
    ((d.checkAndMark now id).1 = false →
      TTLMap.assocFind (d.checkAndMark now id).2.seen.map id =
        some ⟨true, now + d.ttl⟩) := by
  refine ⟨?_, ?_, ?_⟩
  · cases hf : TTLMap.assocFind d.seen.map id with
    | none =>
        simp [MessageDeduplicator.checkAndMark, MessageDeduplicator.isDuplicate,
          h, TTLMap.has, hf]
    | some e =>
        by_cases hx : e.expiresAt < now
        · simp [MessageDeduplicator.checkAndMark, MessageDeduplicator.isDuplicate,
            h, TTLMap.has, hf, hx]
        · simp [MessageDeduplicator.checkAndMark, MessageDeduplicator.isDuplicate,
            h, TTLMap.has, hf, hx]
          omega
  · intro htrue
    cases hf : TTLMap.assocFind d.seen.map id with
    | none =>
        simp [MessageDeduplicator.checkAndMark, MessageDeduplicator.isDuplicate,
          h, TTLMap.has, hf] at htrue
    | some e =>
        by_cases hx : e.expiresAt < now
        · simp [MessageDeduplicator.checkAndMark, MessageDeduplicator.isDuplicate,
            h, TTLMap.has, hf, hx] at htrue
        · simp [MessageDeduplicator.checkAndMark, MessageDeduplicator.isDuplicate,
            h, TTLMap.has, hf, hx]
  · intro hfalse
    have httl := (MessageDeduplicator.isDuplicate_fields d now id).1
    cases hdup : (d.isDuplicate now id).1 with
    | true =>
        simp [MessageDeduplicator.checkAndMark, hdup] at hfalse
    | false =>
        have := MessageDeduplicator.markSeen_find (d.isDuplicate now id).2 now id h
        simpa [MessageDeduplicator.checkAndMark, hdup, httl] using this

/-- Witness for C3 at a concrete deduplicator: the first `checkAndMark` of
`"a"` reports not-duplicate and records the id with deadline `0 + 100`. -/
theorem C3_checkAndMark_atomic_witness :
    ((MessageDeduplicator.init 100 10).checkAndMark 0 "a").1 = false ∧
    TTLMap.assocFind
      (((MessageDeduplicator.init 100 10).checkAndMark 0 "a").2).seen.map "a" =
      some ⟨true, 100⟩ := by
  have h := C3_checkAndMark_atomic (MessageDeduplicator.init 100 10) 0 "a"
    (by decide)
  exact ⟨by decide, h.2.2 (by decide)⟩

set_option maxRecDepth 10000 in
/-- C4 — Deduplicator capacity behaviour, concrete instance: with
`maxEntries = 100`, marking the 100 distinct ids `"1" .. "100"` leaves all of
them present in insertion order; marking `"101"` as well evicts exactly the
ten oldest-inserted ids `"1" .. "10"`, leaving exactly `"11" .. "101"`. -/
theorem C4_capacity_eviction :
    (c4Insert 100).seen.keys = (List.range 100).map (fun i => toString (i + 1)) ∧
    (c4Insert 101).seen.keys = (List.range 91).map (fun i => toString (i + 11)) := by
  decide

/-- C5 counterexample — the capacity invariant fails for small capacities:
with `maxEntries = 1` (which satisfies the claim's `maxEntries ≥ 1`), marking
the non-empty ids `"a"` then `"b"` leaves `size = 2 > 1`, because eviction
deletes `floor(maxEntries * 0.1) = 0` entries. -/
theorem C5_capacity_claim_false :
    ¬ (∀ (ttl maxEntries : Nat), 1 ≤ maxEntries →
        ∀ ops : List (Nat × String), (∀ p ∈ ops, p.2 ≠ "") →
          (MessageDeduplicator.markSeenSeq (MessageDeduplicator.init ttl maxEntries)
              ops).seen.size ≤ maxEntries) := by
  intro hclaim
  have h := hclaim 1000 1 (by decide) [(0, "a"), (0, "b")] (by decide)
  revert h
  decide

/-- C5 amended — Deduplicator capacity invariant for `maxEntries ≥ 10` (so
that the evicted batch `floor(maxEntries * 0.1)` is non-empty): for every
sequence of `markSeen` calls from a fresh deduplicator, `size ≤ maxEntries`
holds immediately after each call. -/
theorem C5_capacity_invariant_amended (ttl maxEntries : Nat)
    (h : 10 ≤ maxEntries) (ops : List (Nat × String)) :
    (MessageDeduplicator.markSeenSeq (MessageDeduplicator.init ttl maxEntries)
        ops).seen.size ≤ maxEntries := by
  suffices haux : ∀ (ops : List (Nat × String)) (d : MessageDeduplicator),
      10 ≤ d.maxEntries → d.seen.size ≤ d.maxEntries →
      (MessageDeduplicator.markSeenSeq d ops).maxEntries = d.maxEntries ∧
      (MessageDeduplicator.markSeenSeq d ops).seen.size ≤ d.maxEntries by
    exact (haux ops (MessageDeduplicator.init ttl maxEntries) h
      (by simp [MessageDeduplicator.init, TTLMap.empty, TTLMap.size])).2
  intro ops
  induction ops with
  | nil => intro d h10 hle; exact ⟨rfl, hle⟩
  | cons p rest ih =>
      intro d h10 hle
      have hmax := MessageDeduplicator.markSeen_maxEntries d p.1 p.2
      have hsz := MessageDeduplicator.markSeen_size_le d p.1 p.2 h10 hle
      have hstep := ih (d.markSeen p.1 p.2) (by rw [hmax]; exact h10)
        (by rw [hmax]; exact hsz)
      constructor
      · simpa [MessageDeduplicator.markSeenSeq, hmax] using hstep.1
      · simpa [MessageDeduplicator.markSeenSeq, hmax] using hstep.2

/-- Witness for the amended C5: a capacity-10 deduplicator given two marks
stays within capacity. -/
theorem C5_capacity_invariant_amended_witness :
    (MessageDeduplicator.markSeenSeq (MessageDeduplicator.init 7 10)
        [(0, "a"), (1, "b")]).seen.size ≤ 10 :=
  C5_capacity_invariant_amended 7 10 (by decide) [(0, "a"), (1, "b")]

/-- C10 counterexample — `markSeen` on an already-seen id does not always
preserve its insertion position: at capacity (`maxEntries = 10`, ids
`"1" .. "10"` present), `markSeen "1"` first evicts the oldest entry (which is
`"1"` itself) and then re-inserts it at the end, changing the iteration
order. -/
theorem C10_reinsert_at_capacity_moves :
    "1" ∈ dedupeAtCapacity.seen.keys ∧
    (dedupeAtCapacity.markSeen 0 "1").seen.keys ≠ dedupeAtCapacity.seen.keys := by
  decide

/-- C10 amended — re-insertion does not refresh eviction position, below
capacity: `set` on an existing key keeps the store's key iteration order
unchanged; `markSeen` on an already-seen id keeps it whenever `size <
maxEntries` (at capacity the prior eviction can remove and re-append the id);
and `evictOldest` deletes exactly the `floor(maxEntries * 0.1)` entries whose
keys were inserted earliest. -/
theorem C10_insertion_order_amended :
    (∀ (K V : Type) (_ : DecidableEq K) (m : TTLMap K V) (now : Nat) (k : K)
        (v : V) (ttl : Nat), k ∈ m.keys → (m.set now k v ttl).keys = m.keys) ∧
    (∀ (d : MessageDeduplicator) (now : Nat) (id : String),
      id ∈ d.seen.keys → d.seen.size < d.maxEntries →
      (d.markSeen now id).seen.keys = d.seen.keys) ∧
    (∀ d : MessageDeduplicator,
      d.evictOldest.seen.map = d.seen.map.drop (d.maxEntries / 10)) := by
  refine ⟨?_, ?_, fun d => rfl⟩
  · intro K V instK m now k v ttl hk
    exact TTLMap.upsert_keys_of_mem m.map k ⟨v, now + ttl⟩ hk
  · intro d now id hid hlt
    by_cases h : id = ""
    · simp [MessageDeduplicator.markSeen, h]
    · have hc : ¬ d.maxEntries ≤ d.seen.size := by omega
      have : (d.markSeen now id).seen.map =
          TTLMap.upsert d.seen.map id ⟨true, now + d.ttl⟩ := by
        simp [MessageDeduplicator.markSeen, h, hc, TTLMap.set]
      simp only [TTLMap.keys, this]
      exact TTLMap.upsert_keys_of_mem d.seen.map id ⟨true, now + d.ttl⟩ hid

/-- Witness for the amended C10: re-setting the older of two keys keeps the
iteration order, both for the raw store and through `markSeen` below
capacity. -/
theorem C10_insertion_order_amended_witness :
    ((((TTLMap.empty 5 : TTLMap String Nat).set 0 "a" 1 10).set 0 "b" 2 10).set
        3 "a" 9 10).keys =
      (((TTLMap.empty 5 : TTLMap String Nat).set 0 "a" 1 10).set 0 "b" 2 10).keys ∧
    ((((MessageDeduplicator.init 100 10).markSeen 0 "x").markSeen 0 "y").markSeen
        1 "x").seen.keys =
      (((MessageDeduplicator.init 100 10).markSeen 0 "x").markSeen 0 "y").seen.keys := by
  constructor
  · exact C10_insertion_order_amended.1 String Nat inferInstance
      (((TTLMap.empty 5).set 0 "a" 1 10).set 0 "b" 2 10) 3 "a" 9 10 (by decide)
  · exact C10_insertion_order_amended.2.1
      (((MessageDeduplicator.init 100 10).markSeen 0 "x").markSeen 0 "y") 1 "x"
      (by decide) (by decide)

/-- C8 — Cooldown Gate spacing: with a recorded last-completion timestamp `t`
(non-zero, i.e. truthy), the wait is exactly `cooldownMs - (now - t)` when the
elapsed time is below the window and `0` otherwise (and `0` when nothing is
recorded); and recording a completion stores `now` with TTL equal to twice
the cooldown window, as the cooldown store is built with default TTL
`USER_COOLDOWN_MS * 2`. -/
theorem C8_cooldown_spacing (t now cooldownMs : Nat) (ht : 0 < t) :
    (now - t < cooldownMs →
      cooldownWait (some t) now cooldownMs = cooldownMs - (now - t)) ∧
    (cooldownMs ≤ now - t → cooldownWait (some t) now cooldownMs = 0) ∧
    cooldownWait none now cooldownMs = 0 ∧
    (mkUserCooldowns cooldownMs).defaultTTL = 2 * cooldownMs ∧
    (∀ (m : TTLMap String Nat) (uid : String), m.defaultTTL = 2 * cooldownMs →
      TTLMap.assocFind (recordCompletion m now uid).map uid =
        some ⟨now, now + 2 * cooldownMs⟩) := by
  have ht' : ¬ t = 0 := by omega
  refine ⟨?_, ?_, rfl, ?_, ?_⟩
  · intro hlt
    simp [cooldownWait, ht', hlt]
  · intro hge
    simp [cooldownWait, ht', Nat.not_lt.mpr hge]
  · simp [mkUserCooldowns, TTLMap.empty, Nat.mul_comm]
  · intro m uid hTTL
    have := TTLMap.assocFind_upsert_self m.map uid
      (⟨now, now + m.defaultTTL⟩ : Entry Nat)
    simpa [recordCompletion, TTLMap.setD, TTLMap.set, hTTL] using this

/-- Witness for C8: last completion at `t = 1`, read at `now = 2`, window
2000 — wait is 1999; and recording at `now = 2` stores deadline `4002`. -/
theorem C8_cooldown_spacing_witness :
    cooldownWait (some 1) 2 2000 = 1999 ∧
    TTLMap.assocFind (recordCompletion (mkUserCooldowns 2000) 2 "u").map "u" =
      some ⟨2, 4002⟩ := by
  have h := C8_cooldown_spacing 1 2 2000 (by decide)
  constructor
  · simpa using h.1 (by decide)
  · simpa using h.2.2.2.2 (mkUserCooldowns 2000) "u" (by decide)

/-- C1 (claim violated by the code) — per-key serializer ordering breaks with
three messages: on `serializerScriptOverlap`, message 3's handler starts
while message 2's handler is still running (trace `start 3` precedes `fin 2`),
because the first `handleMessage`'s `finally` deletes the inflight entry as
soon as message 1's promise settles, even though message 2 is still chained
behind it. -/
theorem C1_serializer_overlap_bug :
    (runScript 100 serializerScriptOverlap LoopState.init).trace =
      [TraceEv.start 1, TraceEv.fin 1, TraceEv.start 2, TraceEv.start 3,
        TraceEv.fin 2, TraceEv.fin 3] := by
  decide

/-- C2 (claim violated by the code) — a failing task starves the task queued
behind it: on `serializerScriptFailure`, message 1's handler throws and
message 2 — queued via `currentPromise.then(() => processMessage(msg))`, which
has no rejection handler — is never executed: the loop reaches quiescence
(nothing running, no inflight entry) with `start 2` absent from the trace. -/
theorem C2_serializer_failure_starvation_bug :
    (runScript 100 serializerScriptFailure LoopState.init).trace =
      [TraceEv.start 1, TraceEv.finErr 1] ∧
    TraceEv.start 2 ∉ (runScript 100 serializerScriptFailure LoopState.init).trace ∧
    (runScript 100 serializerScriptFailure LoopState.init).running = [] ∧
    (runScript 100 serializerScriptFailure LoopState.init).inflight = none := by
  decide

namespace WorkQueue

theorem step_inv (q : WorkQueue) (e : WQEv)
    (h1 : q.running.length ≤ q.limit)
    (h2 : q.pending ≠ [] → q.running.length = q.limit)
    (h3 : q.startedOrder ++ q.pending = q.submittedOrder) :
    (q.step e).limit = q.limit ∧
    (q.step e).running.length ≤ q.limit ∧
    ((q.step e).pending ≠ [] → (q.step e).running.length = q.limit) ∧
    (q.step e).startedOrder ++ (q.step e).pending = (q.step e).submittedOrder := by
  cases e with
  | submit tid =>
      by_cases hlt : q.running.length < q.limit
      · have hp : q.pending = [] := by
          by_contra hne
          have := h2 hne
          omega
        refine ⟨?_, ?_, ?_, ?_⟩
        · simp [step, submit, hlt]
        · simp [step, submit, hlt]
          omega
        · simp [step, submit, hlt, hp]
        · rw [hp] at h3
          simp only [List.append_nil] at h3
          simp [step, submit, hlt, hp, h3]
      · refine ⟨?_, ?_, ?_, ?_⟩
        · simp [step, submit, hlt]
        · simpa [step, submit, hlt] using h1
        · simp [step, submit, hlt]
          omega
        · simp only [step, submit, if_neg hlt]
          rw [← List.append_assoc, h3]
  | settle tid =>
      by_cases hmem : tid ∈ q.running
      · have hlen : (q.running.erase tid).length = q.running.length - 1 :=
          List.length_erase_of_mem hmem
        have hpos : 0 < q.running.length := List.length_pos.mpr
          (List.ne_nil_of_mem hmem)
        cases hp : q.pending with
        | nil =>
            refine ⟨?_, ?_, ?_, ?_⟩
            · simp [step, settleTask, hmem, hp]
            · simp [step, settleTask, hmem, hp]
              omega
            · simp [step, settleTask, hmem, hp]
            · rw [hp] at h3
              simp only [List.append_nil] at h3
              simp [step, settleTask, hmem, hp, h3]
        | cons t rest =>
            have hfull : q.running.length = q.limit := h2 (by simp [hp])
            refine ⟨?_, ?_, ?_, ?_⟩
            · simp [step, settleTask, hmem, hp]
            · simp [step, settleTask, hmem, hp]
              omega
            · simp [step, settleTask, hmem, hp]
              omega
            · rw [hp] at h3
              simp [step, settleTask, hmem, hp]
              rw [← h3]
      · refine ⟨?_, ?_, ?_, ?_⟩
        · simp [step, settleTask, hmem]
        · simpa [step, settleTask, hmem] using h1
        · simpa [step, settleTask, hmem] using h2
        · simpa [step, settleTask, hmem] using h3

theorem run_inv (limit : Nat) (evs : List WQEv) :
    (run limit evs).limit = limit ∧
    (run limit evs).running.length ≤ limit ∧
    ((run limit evs).pending ≠ [] → (run limit evs).running.length = limit) ∧
    (run limit evs).startedOrder ++ (run limit evs).pending =
      (run limit evs).submittedOrder := by
  suffices haux : ∀ (evs : List WQEv) (q : WorkQueue),
      q.limit = limit → q.running.length ≤ limit →
      (q.pending ≠ [] → q.running.length = limit) →
      q.startedOrder ++ q.pending = q.submittedOrder →
      (evs.foldl step q).limit = limit ∧
      (evs.foldl step q).running.length ≤ limit ∧
      ((evs.foldl step q).pending ≠ [] →
        (evs.foldl step q).running.length = limit) ∧
      (evs.foldl step q).startedOrder ++ (evs.foldl step q).pending =
        (evs.foldl step q).submittedOrder by
    exact haux evs (init limit) rfl (by simp [init]) (by simp [init])
      (by simp [init])
  intro evs
  induction evs with
  | nil => intro q hL h1 h2 h3; exact ⟨hL, h1, h2, h3⟩
  | cons e rest ih =>
      intro q hL h1 h2 h3
      have hstep := step_inv q e (by omega)
        (fun hne => by rw [hL]; exact h2 hne) h3
      simp only [List.foldl_cons]
      refine ih (q.step e) ?_ ?_ ?_ hstep.2.2.2
      · rw [hstep.1, hL]
      · have := hstep.2.1
        omega
      · intro hne
        have := hstep.2.2.1 hne
        omega

end WorkQueue

/-- C9 — Bounded Work Queue concurrency bound and start order: for every
concurrency limit and every sequence of submissions and settlements, the
number of running tasks never exceeds the limit and the started tasks form,
in order, a prefix of the submitted tasks (tasks start in FIFO submission
order; the rest wait in the FIFO); concretely, with limit 3 and 10 submitted
long-running tasks, the running count after every prefix of the scenario is
at most 3, the tasks start in order 1..10, and all 10 complete (out of
submission order) with nothing left running or pending. -/
theorem C9_bounded_queue_invariant (limit : Nat) (evs : List WQEv) :
    ((WorkQueue.run limit evs).running.length ≤ limit ∧
      (WorkQueue.run limit evs).startedOrder ++ (WorkQueue.run limit evs).pending =
        (WorkQueue.run limit evs).submittedOrder) ∧
    ((∀ c ∈ WorkQueue.runningCounts 3 c9Script, c ≤ 3) ∧
      (WorkQueue.run 3 c9Script).startedOrder =
        (List.range 10).map (fun i => i + 1) ∧
      (WorkQueue.run 3 c9Script).done.length = 10 ∧
      (∀ t ∈ (List.range 10).map (fun i => i + 1),
        t ∈ (WorkQueue.run 3 c9Script).done) ∧
      (WorkQueue.run 3 c9Script).pending = [] ∧
      (WorkQueue.run 3 c9Script).running = []) := by
  have h := WorkQueue.run_inv limit evs
  exact ⟨⟨h.2.1, h.2.2.2⟩, by decide⟩

/-- Witness for C9 at a concrete stimulus sequence: limit 2, three
submissions and one settlement — at most two running, starts in FIFO order. -/
theorem C9_bounded_queue_invariant_witness :
    (WorkQueue.run 2 [WQEv.submit 1, WQEv.submit 2, WQEv.submit 3,
        WQEv.settle 1]).running.length ≤ 2 ∧
    (WorkQueue.run 2 [WQEv.submit 1, WQEv.submit 2, WQEv.submit 3,
          WQEv.settle 1]).startedOrder ++
        (WorkQueue.run 2 [WQEv.submit 1, WQEv.submit 2, WQEv.submit 3,
          WQEv.settle 1]).pending =
      (WorkQueue.run 2 [WQEv.submit 1, WQEv.submit 2, WQEv.submit 3,
        WQEv.settle 1]).submittedOrder :=
  (C9_bounded_queue_invariant 2
    [WQEv.submit 1, WQEv.submit 2, WQEv.submit 3, WQEv.settle 1]).1

end TravelBot
